import Mathlib

/-!
Verification of the CSUN campus map-quiz game (`script.js`).

The repository holds two variants of the same script:
* variant A — in-memory leaderboard, capacity 5 (`script.js` lines 1-421);
* variant B — localStorage-persisted leaderboard, capacity 10 (lines 422-847).

JavaScript numbers are modelled as `Int` (counters, timestamps) and `ℚ`
(times, distances, coordinates); nullable values as `Option`; code that can
throw is modelled as `Except Unit` with the surrounding `try`/`catch` made
explicit.
-/

namespace MapQuiz

/-- A leaderboard entry as pushed by `saveScore`:
`{ correct, total, timeSeconds: number | null, timestamp }`. -/
structure ScoreEntry where
  correct : Int
  total : Int
  timeSeconds : Option ℚ
  timestamp : Int
deriving DecidableEq, Repr

/-- The comparator passed to `highScores.sort` / `scores.sort` — identical in
both variants (`script.js` lines 379-387 and 803-811):
more correct answers first; at equal `correct`, `null` times tie with each
other, lose to any number, and numbers compare ascending.  Only the sign of
the returned value matters to the sort. -/
def scoreCmp (a b : ScoreEntry) : ℚ :=
  if b.correct ≠ a.correct then
    ((b.correct - a.correct : Int) : ℚ)
  else
    match a.timeSeconds, b.timeSeconds with
    | none, none => 0
    | none, some _ => 1
    | some _, none => -1
    | some ta, some tb => ta - tb

/-- `a` ranks no worse than `b` under the `saveScore` comparator. -/
def sLe (a b : ScoreEntry) : Prop :=
  scoreCmp a b ≤ 0

/-- Subtraction-free Boolean evaluation of `sLe` (the sign test the sort
actually performs); `ℚ` subtraction is irreducible, so this is what makes
`sLe` computable by the kernel. -/
def scoreLeB (a b : ScoreEntry) : Bool :=
  if b.correct ≠ a.correct then
    decide (b.correct ≤ a.correct)
  else
    match a.timeSeconds, b.timeSeconds with
    | none, none => true
    | none, some _ => false
    | some _, none => true
    | some ta, some tb => decide (ta ≤ tb)

instance (a b : ScoreEntry) : Decidable (sLe a b) :=
  decidable_of_iff (scoreLeB a b = true) (by
    unfold scoreLeB sLe scoreCmp
    by_cases h : b.correct = a.correct
    · simp only [h, ne_eq, not_true_eq_false, if_false, reduceIte]
      rcases a.timeSeconds with _ | ta <;> rcases b.timeSeconds with _ | tb <;>
        simp [sub_nonpos]
    · simp only [ne_eq, h, not_false_eq_true, if_true, reduceIte,
        decide_eq_true_eq]
      constructor
      · intro hle
        have hz : (b.correct - a.correct : Int) ≤ 0 := by omega
        have h2 : ((b.correct - a.correct : Int) : ℚ) ≤ ((0 : Int) : ℚ) := by
          exact_mod_cast hz
        simpa using h2
      · intro hle
        have h2 : (b.correct - a.correct : Int) ≤ 0 := by exact_mod_cast hle
        omega)

/-- One step of the stable insertion realising `Array.prototype.sort`:
`x` goes in front of the first element it does not strictly lose to. -/
def insertScore (x : ScoreEntry) : List ScoreEntry → List ScoreEntry
  | [] => [x]
  | y :: ys => if sLe x y then x :: y :: ys else y :: insertScore x ys

/-- `Array.prototype.sort(cmp)` is, per the ECMAScript spec, a stable sort
placing `a` before `b` whenever `cmp a b < 0` and preserving original order
whenever `cmp a b = 0`; a stable insertion sort realises exactly that
specification for the sign-antisymmetric `scoreCmp`. -/
def sortScores : List ScoreEntry → List ScoreEntry
  | [] => []
  | x :: xs => insertScore x (sortScores xs)

/-- The object literal pushed by `saveScore`: `timeSeconds` arrives as
`number | null` (the `stopTimer` result) and the guard
`typeof timeSeconds === "number"` keeps a number and maps anything else to
`null`. -/
def mkEntry (correct total : Int) (timeSeconds : Option ℚ) (timestamp : Int) :
    ScoreEntry :=
  ⟨correct, total, timeSeconds, timestamp⟩

/-- Variant A `saveScore` (`script.js` lines 367-393): push the new entry,
stable-sort with `scoreCmp`, keep only the top 5. -/
def saveScore (highScores : List ScoreEntry) (correct total : Int)
    (timeSeconds : Option ℚ) (timestamp : Int) : List ScoreEntry :=
  (sortScores (highScores ++ [mkEntry correct total timeSeconds timestamp])).take 5

/-- Variant A `saveScore` with the capacity (the literal `5` of the source)
abstracted as a configuration option, as spec §4.4 directs. -/
def saveScoreMemCap (cap : Nat) (highScores : List ScoreEntry)
    (correct total : Int) (timeSeconds : Option ℚ) (timestamp : Int) :
    List ScoreEntry :=
  (sortScores (highScores ++ [mkEntry correct total timeSeconds timestamp])).take cap

/-- The tie-break on recorded times, read off the comparator: absent times tie
with each other, lose to any recorded time, and recorded times compare
ascending. -/
def timeLe : Option ℚ → Option ℚ → Prop
  | none, none => True
  | none, some _ => False
  | some _, none => True
  | some ta, some tb => ta ≤ tb

/-- A geographic coordinate (`google.maps.LatLng`), lat/lng in degrees. -/
structure Coord where
  lat : ℚ
  lng : ℚ
deriving DecidableEq, Repr

/-- One quiz target of the `LOCATIONS` catalog. -/
structure Location where
  name : String
  code : String
  grid : String
  position : Coord
deriving DecidableEq, Repr

/-- The `LOCATIONS` catalog (`script.js` lines 5-36, identical in both
variants). -/
def LOCATIONS : List Location :=
  [⟨"Sustainability Center", "SB", "F4", ⟨34.2408534, -118.5266263⟩⟩,
   ⟨"Jacaranda Hall", "JD", "E5", ⟨34.2411177, -118.5289256⟩⟩,
   ⟨"Live Oak Hall", "LO", "G4", ⟨34.238307, -118.5281976⟩⟩,
   ⟨"Redwood Hall", "RE", "F5", ⟨34.2419438, -118.5262211⟩⟩,
   ⟨"Sequoia Hall", "SQ", "E4", ⟨34.2405526, -118.5282433⟩⟩]

/-- `CORRECT_DISTANCE_METERS` (line 39): how close a guess must land to count
as correct. -/
def CORRECT_DISTANCE_METERS : ℚ := 50

/-- The session variables of the round state machine (`script.js` lines
76-78).  The JS counters only ever hold naturals, so `Nat` is used. -/
structure GameState where
  currentIndex : Nat
  correctCount : Nat
  guessingEnabled : Bool
deriving DecidableEq, Repr

/-- The callback handed to `setTimeout` at the end of `handleGuess`
(lines 229-234). -/
inductive ScheduledAction where
  | startRoundCb
  | endGameCb
deriving DecidableEq, Repr

/-- The state-machine effect of `endGame` (lines 237-255): guessing is
disabled.  Stopping the timer and recording the score are modelled by
`stopTimer` and `saveScore`; re-enabling the Start button, the alert and the
prompt text are presentation. -/
def endGameStep (s : GameState) : GameState :=
  { s with guessingEnabled := false }

/-- `startRound` (lines 180-193): ends the game when the catalog is
exhausted, otherwise re-enables guessing for round `currentIndex`. -/
def startRoundStep (s : GameState) : GameState :=
  if s.currentIndex ≥ LOCATIONS.length then endGameStep s
  else { s with guessingEnabled := true }

/-- Placeholder for the out-of-range catalog read `LOCATIONS[currentIndex]`
(JS would yield `undefined`; the guard `guessingEnabled` keeps the index in
range in every reachable state, see the C6 invariant). -/
def dummyLocation : Location :=
  ⟨"", "", "", ⟨0, 0⟩⟩

/-- `handleGuess` (lines 195-235): disable guessing, compute the distance
from the guess to the current target via the external geodesy capability
`distanceMeters`, count a correct answer iff it is within
`CORRECT_DISTANCE_METERS`, advance the index, and schedule `startRound` —
or, past the last round, `endGame` — on a 1500 ms timeout.  Marker and text
updates are presentation and carry no game state. -/
def handleGuess (distanceMeters : Coord → Coord → ℚ) (latLng : Coord)
    (s : GameState) : GameState × ScheduledAction :=
  let loc := LOCATIONS.getD s.currentIndex dummyLocation
  let distance := distanceMeters latLng loc.position
  let isCorrect := distance ≤ CORRECT_DISTANCE_METERS
  let correctCount1 := if isCorrect then s.correctCount + 1 else s.correctCount
  let currentIndex1 := s.currentIndex + 1
  (⟨currentIndex1, correctCount1, false⟩,
    if currentIndex1 < LOCATIONS.length then .startRoundCb else .endGameCb)

/-- The map `dblclick` listener (lines 135-138): when guessing is disabled
the event is dropped before `handleGuess` — and before any distance is
evaluated; otherwise it runs `handleGuess`.  Returns the new state and the
scheduled callback, if any. -/
def onMapDblClick (distanceMeters : Coord → Coord → ℚ) (latLng : Coord)
    (s : GameState) : GameState × Option ScheduledAction :=
  if s.guessingEnabled then
    let r := handleGuess distanceMeters latLng s
    (r.1, some r.2)
  else
    (s, none)

/-- `startGame` (lines 158-178): reset the counters, then `startRound`.
Clearing graphics, restarting the timer and disabling the Start button are
presentation / timer concerns. -/
def startGameStep (s : GameState) : GameState :=
  startRoundStep ⟨0, 0, s.guessingEnabled⟩

/-- A running session: the game variables plus the pending `setTimeout`
round-advance callback, if any (at most one is ever outstanding because
`handleGuess` disables guessing until the callback fires). -/
structure SessionState where
  game : GameState
  pending : Option ScheduledAction

/-- The events that drive a session: the Start button (valid from any state,
per spec §4.3), a map double-click evaluated with the external distance
function, and the pending round-advance timeout firing. -/
inductive Event where
  | pressStart
  | select (distanceMeters : Coord → Coord → ℚ) (latLng : Coord)
  | fire

/-- Running the callback a `setTimeout` fires. -/
def runScheduled : ScheduledAction → GameState → GameState
  | .startRoundCb, s => startRoundStep s
  | .endGameCb, s => endGameStep s

/-- One event step of the session machine. -/
def stepSession : Event → SessionState → SessionState
  | .pressStart, st => ⟨startGameStep st.game, st.pending⟩
  | .select dm c, st =>
    match onMapDblClick dm c st.game with
    | (g, none) => ⟨g, st.pending⟩
    | (g, some a) => ⟨g, some a⟩
  | .fire, st =>
    match st.pending with
    | none => st
    | some a => ⟨runScheduled a st.game, none⟩

/-- The session states reachable from page load (`currentIndex = 0`,
`correctCount = 0`, guessing disabled, nothing scheduled) by any sequence of
events. -/
inductive Reachable : SessionState → Prop
  | init : Reachable ⟨⟨0, 0, false⟩, none⟩
  | step (e : Event) {st : SessionState} : Reachable st →
      Reachable (stepSession e st)

/-- The rational `50.0001`, written with explicit numerator and denominator
so the kernel can compute with it. -/
def distFiftyPlus : ℚ :=
  ⟨500001, 10000, by decide, by decide⟩

/-- The session invariant: the round index never passes the catalog length,
the correct counter never passes the round index, and guessing is enabled
only while the index points at a real round. -/
def SessionInv (st : SessionState) : Prop :=
  st.game.currentIndex ≤ LOCATIONS.length ∧
  st.game.correctCount ≤ st.game.currentIndex ∧
  (st.game.guessingEnabled = true → st.game.currentIndex < LOCATIONS.length)

/-- The timer globals (`script.js` lines 91-92): the interval handle (only
its presence matters) and the `performance.now()` start reading in
milliseconds.  `performance.now()` is strictly positive by the time any
handler can run, so the JS truthiness test `!startTime` coincides with
null-ness. -/
structure TimerState where
  timerInterval : Option Unit
  startTime : Option ℚ
deriving DecidableEq, Repr

/-- `startTimer` (lines 332-338): clear any previous interval (replace,
never stack), record the start instant, begin the periodic tick. -/
def startTimer (now : ℚ) (_t : TimerState) : TimerState :=
  ⟨some (), some now⟩

/-- `stopTimer` (lines 340-351): when no timer is running return `null` and
change nothing; otherwise clear the tick interval, null the start time, and
return the elapsed seconds `(now - start) / 1000`. -/
def stopTimer (now : ℚ) (t : TimerState) : TimerState × Option ℚ :=
  match t.startTime with
  | none => (t, none)
  | some st => (⟨none, none⟩, some ((now - st) / 1000))

/-- What `localStorage.getItem(SCORES_KEY)` can come back as, after
`JSON.parse`: nothing stored, unparseable text (`JSON.parse` throws), valid
JSON that is not an array, or an array of entries. -/
inductive StoredValue where
  | absent
  | malformed
  | nonArray
  | arr (entries : List ScoreEntry)
deriving DecidableEq, Repr

/-- What `highScoreEl` shows.  Constructors stand for the exact strings the
code writes: `"High Scores: none yet"`, `"High Scores: N/A"`,
`"High Scores: Unavailable"`, and the `"High Scores:"` header followed by
one numbered line per entry. -/
inductive Display where
  | noneYet
  | na
  | unavailable
  | board (entries : List ScoreEntry)
deriving DecidableEq, Repr

/-- `renderScoreBoard` (lines 823-841): the empty-leaderboard message for no
entries, otherwise the rendered board. -/
def renderScoreBoard (scores : List ScoreEntry) : Display :=
  if scores.isEmpty then .noneYet else .board scores

/-- The body of variant B `loadScoresFromStorage` (lines 766-782) inside its
`try`: missing, non-array or empty data shows `"High Scores: N/A"`;
unparseable data throws out of `JSON.parse`. -/
def loadScoresBody : StoredValue → Except Unit Display
  | .absent => .ok .na
  | .malformed => .error ()
  | .nonArray => .ok .na
  | .arr entries => .ok (if entries.isEmpty then .na else renderScoreBoard entries)

/-- Variant B `loadScoresFromStorage` with its `catch`: any exception is
turned into the `"High Scores: Unavailable"` placeholder. -/
def loadScoresFromStorage (sv : StoredValue) : Display :=
  match loadScoresBody sv with
  | .ok d => d
  | .error _ => .unavailable

/-- The persisted leaderboard cell and what the page currently displays. -/
structure PersistLB where
  stored : StoredValue
  display : Display
deriving DecidableEq, Repr

/-- The body of variant B `saveScore` (lines 784-821) inside its `try`, with
the capacity (the literal `10` of the source) abstracted as a configuration
option per spec §4.4 and the possibility of `localStorage.setItem` throwing
made explicit: read and parse the stored entries (non-array data degrades to
`[]`, unparseable data throws), push the new entry, stable-sort, truncate,
write back, re-render. -/
def saveScorePersistCapBody (cap : Nat) (writeFails : Bool) (st : PersistLB)
    (correct total : Int) (timeSeconds : Option ℚ) (timestamp : Int) :
    Except Unit PersistLB := do
  let scores0 ← match st.stored with
    | .malformed => Except.error ()
    | .arr l => Except.ok l
    | _ => Except.ok ([] : List ScoreEntry)
  let scores1 :=
    (sortScores (scores0 ++ [mkEntry correct total timeSeconds timestamp])).take cap
  if writeFails then Except.error ()
  else Except.ok ⟨.arr scores1, renderScoreBoard scores1⟩

/-- Variant B `saveScore` with its `catch`: storage errors are swallowed and
the state is left as it was. -/
def saveScorePersistCap (cap : Nat) (writeFails : Bool) (st : PersistLB)
    (correct total : Int) (timeSeconds : Option ℚ) (timestamp : Int) :
    PersistLB :=
  match saveScorePersistCapBody cap writeFails st correct total timeSeconds
      timestamp with
  | .ok st1 => st1
  | .error _ => st

/-- Variant B `saveScore` at its source capacity of 10. -/
def saveScorePersist (writeFails : Bool) (st : PersistLB)
    (correct total : Int) (timeSeconds : Option ℚ) (timestamp : Int) :
    PersistLB :=
  saveScorePersistCap 10 writeFails st correct total timeSeconds timestamp

/-- Fold of variant A recording over a list of results (each list element
carries one `(correct, total, timeSeconds, timestamp)` recording). -/
def runMem (cap : Nat) (init : List ScoreEntry) (recs : List ScoreEntry) :
    List ScoreEntry :=
  recs.foldl
    (fun s e => saveScoreMemCap cap s e.correct e.total e.timeSeconds e.timestamp)
    init

/-- Fold of variant B recording over the same results, against a reliable
storage backend initially holding `init`. -/
def runPersist (cap : Nat) (init : List ScoreEntry) (recs : List ScoreEntry) :
    PersistLB :=
  recs.foldl
    (fun st e =>
      saveScorePersistCap cap false st e.correct e.total e.timeSeconds e.timestamp)
    ⟨.arr init, renderScoreBoard init⟩

/-- Eight sample recordings (correct answers 3,1,4,2,8,6,5,7 out of 8),
`capacity + 3` of them for the in-memory capacity of 5. -/
def sampleRecordings : List ScoreEntry :=
  [⟨3, 8, some 3, 3⟩, ⟨1, 8, some 1, 1⟩, ⟨4, 8, some 4, 4⟩,
   ⟨2, 8, some 2, 2⟩, ⟨8, 8, some 8, 8⟩, ⟨6, 8, some 6, 6⟩,
   ⟨5, 8, some 5, 5⟩, ⟨7, 8, some 7, 7⟩]

theorem sLe_iff (a b : ScoreEntry) :
    sLe a b ↔
      b.correct < a.correct ∨
        (b.correct = a.correct ∧ timeLe a.timeSeconds b.timeSeconds) := by
  obtain ⟨ac, ato, ats, atm⟩ := a
  obtain ⟨bc, bto, bts, btm⟩ := b
  unfold sLe scoreCmp
  simp only
  by_cases h : bc = ac
  · subst h
    rcases ats with _ | ta <;> rcases bts with _ | tb <;>
      simp [timeLe, sub_nonpos]
  · rw [if_pos h]
    constructor
    · intro hle
      left
      have : (bc - ac : Int) ≤ 0 := by exact_mod_cast hle
      omega
    · rintro (hlt | ⟨rfl, _⟩)
      · have hz : (bc - ac : Int) ≤ 0 := by omega
        exact_mod_cast hz
      · exact absurd rfl h

theorem timeLe_total (x y : Option ℚ) : timeLe x y ∨ timeLe y x := by
  rcases x with _ | ta <;> rcases y with _ | tb <;> simp [timeLe]
  exact le_total ta tb

theorem timeLe_trans {x y z : Option ℚ} (h1 : timeLe x y) (h2 : timeLe y z) :
    timeLe x z := by
  rcases x with _ | ta <;> rcases y with _ | tb <;> rcases z with _ | tc <;>
    simp_all [timeLe]
  exact le_trans h1 h2

theorem sLe_total (a b : ScoreEntry) : sLe a b ∨ sLe b a := by
  rw [sLe_iff, sLe_iff]
  rcases lt_trichotomy b.correct a.correct with h | h | h
  · exact Or.inl (Or.inl h)
  · rcases timeLe_total a.timeSeconds b.timeSeconds with ht | ht
    · exact Or.inl (Or.inr ⟨h, ht⟩)
    · exact Or.inr (Or.inr ⟨h.symm, ht⟩)
  · exact Or.inr (Or.inl h)

theorem sLe_trans {a b c : ScoreEntry} (h1 : sLe a b) (h2 : sLe b c) :
    sLe a c := by
  rw [sLe_iff] at h1 h2 ⊢
  rcases h1 with h1 | ⟨h1e, h1t⟩ <;> rcases h2 with h2 | ⟨h2e, h2t⟩
  · exact Or.inl (by omega)
  · exact Or.inl (by omega)
  · exact Or.inl (by omega)
  · exact Or.inr ⟨by omega, timeLe_trans h1t h2t⟩

/-- Sign-antisymmetry of the comparator: not ranking no-worse one way forces
ranking no-worse the other way. -/
theorem sLe_of_not_sLe {a b : ScoreEntry} (h : ¬ sLe a b) : sLe b a :=
  (sLe_total a b).resolve_left h

theorem mem_insertScore (z x : ScoreEntry) (l : List ScoreEntry) :
    z ∈ insertScore x l ↔ z = x ∨ z ∈ l := by
  induction l with
  | nil => simp [insertScore]
  | cons y ys ih =>
    unfold insertScore
    split
    · simp
    · simp [ih]
      tauto

theorem pairwise_insertScore (x : ScoreEntry) {l : List ScoreEntry}
    (h : l.Pairwise sLe) : (insertScore x l).Pairwise sLe := by
  induction l with
  | nil => simp [insertScore]
  | cons y ys ih =>
    rw [List.pairwise_cons] at h
    unfold insertScore
    split
    · rename_i hxy
      refine List.pairwise_cons.mpr ⟨?_, List.pairwise_cons.mpr h⟩
      intro z hz
      rcases List.mem_cons.mp hz with rfl | hz
      · exact hxy
      · exact sLe_trans hxy (h.1 z hz)
    · rename_i hxy
      refine List.pairwise_cons.mpr ⟨?_, ih h.2⟩
      intro z hz
      rcases (mem_insertScore z x ys).mp hz with rfl | hz
      · exact sLe_of_not_sLe hxy
      · exact h.1 z hz

theorem pairwise_sortScores (l : List ScoreEntry) :
    (sortScores l).Pairwise sLe := by
  induction l with
  | nil => simp [sortScores]
  | cons x xs ih => exact pairwise_insertScore x ih

theorem length_insertScore (x : ScoreEntry) (l : List ScoreEntry) :
    (insertScore x l).length = l.length + 1 := by
  induction l with
  | nil => simp [insertScore]
  | cons y ys ih =>
    unfold insertScore
    split <;> simp [ih]

theorem length_sortScores (l : List ScoreEntry) :
    (sortScores l).length = l.length := by
  induction l with
  | nil => rfl
  | cons x xs ih => simp [sortScores, length_insertScore, ih]

theorem perm_insertScore (x : ScoreEntry) (l : List ScoreEntry) :
    (insertScore x l).Perm (x :: l) := by
  induction l with
  | nil => simp [insertScore]
  | cons y ys ih =>
    unfold insertScore
    split
    · exact List.Perm.refl _
    · exact (List.Perm.cons y ih).trans (List.Perm.swap x y ys)

theorem perm_sortScores (l : List ScoreEntry) : (sortScores l).Perm l := by
  induction l with
  | nil => exact List.Perm.refl _
  | cons x xs ih => exact (perm_insertScore x (sortScores xs)).trans (ih.cons x)

theorem distFiftyPlus_eq : distFiftyPlus = 50.0001 := by
  show Rat.mk' 500001 10000 = 50.0001
  rw [Rat.mk'_eq_divInt, Rat.divInt_eq_div]
  norm_num

theorem sessionInv_startRoundStep {g : GameState}
    (h : g.correctCount ≤ g.currentIndex ∧ g.currentIndex ≤ LOCATIONS.length) :
    ∀ p, SessionInv ⟨startRoundStep g, p⟩ := by
  obtain ⟨ci, cc, ge⟩ := g
  obtain ⟨h1, h2⟩ := h
  intro p
  unfold startRoundStep endGameStep
  by_cases hge : ci ≥ LOCATIONS.length
  · rw [if_pos hge]
    exact ⟨h2, h1, by simp⟩
  · rw [if_neg hge]
    refine ⟨h2, h1, fun _ => ?_⟩
    dsimp only
    omega

theorem sessionInv_preserved (e : Event) {st : SessionState}
    (h : SessionInv st) : SessionInv (stepSession e st) := by
  obtain ⟨h1, h2, h3⟩ := h
  cases e with
  | pressStart =>
    show SessionInv ⟨startGameStep st.game, st.pending⟩
    unfold startGameStep
    exact sessionInv_startRoundStep ⟨Nat.le_refl 0, Nat.zero_le _⟩ st.pending
  | select dm c =>
    show SessionInv (match onMapDblClick dm c st.game with
      | (g, none) => ⟨g, st.pending⟩
      | (g, some a) => ⟨g, some a⟩)
    unfold onMapDblClick
    by_cases hg : st.game.guessingEnabled
    · rw [if_pos hg]
      have hidx := h3 hg
      unfold handleGuess
      refine ⟨by simpa using hidx, ?_, by simp⟩
      simp only
      split <;> omega
    · rw [if_neg hg]
      exact ⟨h1, h2, h3⟩
  | fire =>
    show SessionInv (match st.pending with
      | none => st
      | some a => ⟨runScheduled a st.game, none⟩)
    rcases st.pending with _ | a
    · exact ⟨h1, h2, h3⟩
    · cases a with
      | startRoundCb =>
        exact sessionInv_startRoundStep ⟨h2, h1⟩ none
      | endGameCb =>
        refine ⟨h1, h2, fun hx => ?_⟩
        simp [runScheduled, endGameStep] at hx

theorem sessionInv_of_reachable {st : SessionState} (h : Reachable st) :
    SessionInv st := by
  induction h with
  | init => exact ⟨by simp, by simp, by simp⟩
  | step e hst ih => exact sessionInv_preserved e ih

theorem saveScorePersistCap_ok (cap : Nat) (s : List ScoreEntry) (d : Display)
    (c t : Int) (ts : Option ℚ) (tm : Int) :
    saveScorePersistCap cap false ⟨.arr s, d⟩ c t ts tm =
      ⟨.arr (saveScoreMemCap cap s c t ts tm),
        renderScoreBoard (saveScoreMemCap cap s c t ts tm)⟩ :=
  rfl

theorem runPersist_eq_runMem (cap : Nat) (recs init : List ScoreEntry) :
    runPersist cap init recs =
      ⟨.arr (runMem cap init recs), renderScoreBoard (runMem cap init recs)⟩ := by
  induction recs generalizing init with
  | nil => rfl
  | cons e recs ih =>
    show (runPersist cap init (e :: recs)) = _
    unfold runPersist runMem
    simp only [List.foldl_cons]
    rw [saveScorePersistCap_ok]
    exact ih (saveScoreMemCap cap init e.correct e.total e.timeSeconds e.timestamp)

theorem length_saveScoreMemCap (cap : Nat) (scores : List ScoreEntry)
    (c t : Int) (ts : Option ℚ) (tm : Int) :
    (saveScoreMemCap cap scores c t ts tm).length =
      min cap (scores.length + 1) := by
  unfold saveScoreMemCap
  rw [List.length_take, length_sortScores, List.length_append]
  simp

theorem length_runMem (cap : Nat) (recs : List ScoreEntry) :
    ∀ init : List ScoreEntry, init.length ≤ cap →
      (runMem cap init recs).length = min (init.length + recs.length) cap := by
  induction recs with
  | nil =>
    intro init h
    unfold runMem
    simp only [List.foldl_nil, List.length_nil]
    omega
  | cons e recs ih =>
    intro init h
    unfold runMem
    simp only [List.foldl_cons]
    have h1 := length_saveScoreMemCap cap init e.correct e.total e.timeSeconds
      e.timestamp
    have h2 := ih (saveScoreMemCap cap init e.correct e.total e.timeSeconds
      e.timestamp) (by omega)
    unfold runMem at h2
    rw [h2, h1]
    simp only [List.length_cons]
    omega

theorem pairwise_take_drop {l : List ScoreEntry} (h : l.Pairwise sLe)
    (n : Nat) : ∀ x ∈ l.take n, ∀ y ∈ l.drop n, sLe x y := by
  have h2 : (l.take n ++ l.drop n).Pairwise sLe := by
    rwa [List.take_append_drop]
  exact (List.pairwise_append.mp h2).2.2

/-- C1: the ranking used by `saveScore` is a total (pre)order on score
entries: comparison is total and transitive; the primary key is `correct`
descending; at equal `correct` timed entries compare by time ascending; an
untimed entry ranks strictly worse than any timed entry at equal `correct`;
two untimed entries are equal-ranked and the stable sort keeps their
insertion order; and inserting `{correct:3,time:10}`, `{correct:5,time:20}`,
`{correct:5,time:15}` through `saveScore` yields `[5/15, 5/20, 3/10]`. -/
theorem claim_C1 :
    (∀ a b : ScoreEntry, sLe a b ∨ sLe b a) ∧
    (∀ a b c : ScoreEntry, sLe a b → sLe b c → sLe a c) ∧
    (∀ a b : ScoreEntry, b.correct < a.correct → sLe a b ∧ ¬ sLe b a) ∧
    (∀ a b : ScoreEntry, a.correct = b.correct →
      ∀ ta tb : ℚ, a.timeSeconds = some ta → b.timeSeconds = some tb →
        (sLe a b ↔ ta ≤ tb)) ∧
    (∀ a b : ScoreEntry, a.correct = b.correct → a.timeSeconds = none →
      ∀ tb : ℚ, b.timeSeconds = some tb → sLe b a ∧ ¬ sLe a b) ∧
    (∀ a b : ScoreEntry, a.correct = b.correct → a.timeSeconds = none →
      b.timeSeconds = none → sLe a b ∧ sLe b a) ∧
    (saveScore (saveScore [] 2 5 none 1) 2 5 none 2 =
      [mkEntry 2 5 none 1, mkEntry 2 5 none 2]) ∧
    (saveScore (saveScore (saveScore [] 3 5 (some 10) 100) 5 5 (some 20) 101)
        5 5 (some 15) 102 =
      [mkEntry 5 5 (some 15) 102, mkEntry 5 5 (some 20) 101,
        mkEntry 3 5 (some 10) 100]) := by
  refine ⟨sLe_total, fun a b c => sLe_trans, ?_, ?_, ?_, ?_, by decide, by decide⟩
  · intro a b hlt
    constructor
    · exact (sLe_iff a b).mpr (Or.inl hlt)
    · intro hba
      rcases (sLe_iff b a).mp hba with h | ⟨h, _⟩ <;> omega
  · intro a b hc ta tb hta htb
    rw [sLe_iff, hta, htb]
    constructor
    · rintro (h | ⟨_, h⟩)
      · omega
      · exact h
    · intro h
      exact Or.inr ⟨hc.symm, h⟩
  · intro a b hc hta tb htb
    constructor
    · rw [sLe_iff, hta, htb]
      exact Or.inr ⟨hc, trivial⟩
    · intro hab
      rcases (sLe_iff a b).mp hab with h | ⟨_, h⟩
      · omega
      · rw [hta, htb] at h
        exact h
  · intro a b hc hta htb
    constructor <;> rw [sLe_iff, hta, htb]
    · exact Or.inr ⟨hc.symm, trivial⟩
    · exact Or.inr ⟨hc, trivial⟩

/-- Witness for C1 at concrete entries: `5/15` ranks strictly better than
`3/10`. -/
theorem claim_C1_witness :
    sLe (mkEntry 5 5 (some 15) 102) (mkEntry 3 5 (some 10) 100) ∧
      ¬ sLe (mkEntry 3 5 (some 10) 100) (mkEntry 5 5 (some 15) 102) :=
  claim_C1.2.2.1 (mkEntry 5 5 (some 15) 102) (mkEntry 3 5 (some 10) 100)
    (by decide)

/-- C2: a guess submitted in an active round is judged correct exactly when
the evaluated distance to the current target's position is at most
`CORRECT_DISTANCE_METERS = 50`: the correct counter is incremented iff
`distance ≤ 50`; in particular a guess at exactly 50 m increments it and a
guess at 50.0001 m does not. -/
theorem claim_C2 :
    (∀ (dm : Coord → Coord → ℚ) (c : Coord) (s : GameState),
      s.guessingEnabled = true →
      ∀ h : s.currentIndex < LOCATIONS.length,
        (onMapDblClick dm c s).1.correctCount =
          if dm c (LOCATIONS.get ⟨s.currentIndex, h⟩).position ≤
              CORRECT_DISTANCE_METERS
          then s.correctCount + 1 else s.correctCount) ∧
    CORRECT_DISTANCE_METERS = 50 ∧
    (onMapDblClick (fun _ _ => 50) ⟨0, 0⟩ ⟨0, 0, true⟩).1.correctCount = 1 ∧
    (onMapDblClick (fun _ _ => distFiftyPlus) ⟨0, 0⟩
      ⟨0, 0, true⟩).1.correctCount = 0 := by
  refine ⟨?_, rfl, by decide, by decide⟩
  intro dm c s hg h
  unfold onMapDblClick handleGuess
  rw [if_pos hg]
  simp only [List.getD_eq_get LOCATIONS dummyLocation h]

/-- Witness for C2: at the first round of a fresh game, a guess evaluated at
exactly 50 m is counted. -/
theorem claim_C2_witness :
    (onMapDblClick (fun _ _ => 50) ⟨0, 0⟩ ⟨0, 0, true⟩).1.correctCount =
      if (fun (_ _ : Coord) => (50 : ℚ)) ⟨0, 0⟩
          (LOCATIONS.get ⟨0, by decide⟩).position ≤ CORRECT_DISTANCE_METERS
      then 0 + 1 else 0 :=
  claim_C2.1 (fun _ _ => 50) ⟨0, 0⟩ ⟨0, 0, true⟩ rfl (by decide)

/-- C4 as stated is false: the callback `handleGuess` schedules after the
last round is `endGame` itself — a special case inside the guess handler —
not the generic `startRound` advance step.  Concretely, at
`currentIndex = 4` (the fifth and last round) the scheduled callback is
`endGameCb`. -/
theorem claim_C4_counterexample :
    (handleGuess (fun _ _ => 0) ⟨0, 0⟩ ⟨4, 0, true⟩).2 =
        ScheduledAction.endGameCb ∧
      ScheduledAction.endGameCb ≠ ScheduledAction.startRoundCb := by
  decide

/-- C4 (amended): `handleGuess` special-cases the last round, scheduling
`endGame` directly instead of the generic advance; but the behaviour is the
same as always scheduling the generic advance, because `startRound` itself
invokes `endGame` once the catalog is exhausted — running whichever callback
`handleGuess` scheduled equals running `startRound` on the post-guess
state. -/
theorem claim_C4 :
    ∀ (dm : Coord → Coord → ℚ) (c : Coord) (s : GameState),
      runScheduled (handleGuess dm c s).2 (handleGuess dm c s).1 =
        startRoundStep (handleGuess dm c s).1 := by
  intro dm c s
  by_cases h : s.currentIndex + 1 < LOCATIONS.length
  · have h2 : (handleGuess dm c s).2 = .startRoundCb := by
      simp [handleGuess, h]
    rw [h2]
    rfl
  · have h2 : (handleGuess dm c s).2 = .endGameCb := by
      simp [handleGuess, h]
    have h3 : (handleGuess dm c s).1.currentIndex = s.currentIndex + 1 := by
      simp [handleGuess]
    rw [h2]
    show endGameStep _ = startRoundStep _
    unfold startRoundStep
    rw [if_pos (by rw [h3]; omega)]

/-- C5: while guessing is disabled, a coordinate-selected event is a silent
no-op: the state is unchanged, nothing is scheduled, the result does not
depend on the distance evaluator (no distance is evaluated), and the session
step leaves the session untouched. -/
theorem claim_C5 :
    ∀ (dm dm2 : Coord → Coord → ℚ) (c c2 : Coord) (s : GameState),
      s.guessingEnabled = false →
      onMapDblClick dm c s = (s, none) ∧
      (onMapDblClick dm c s).1.currentIndex = s.currentIndex ∧
      (onMapDblClick dm c s).1.correctCount = s.correctCount ∧
      onMapDblClick dm c s = onMapDblClick dm2 c2 s ∧
      ∀ p : Option ScheduledAction,
        stepSession (.select dm c) ⟨s, p⟩ = ⟨s, p⟩ := by
  intro dm dm2 c c2 s hg
  have hno : ∀ (dm3 : Coord → Coord → ℚ) (c3 : Coord),
      onMapDblClick dm3 c3 s = (s, none) := by
    intro dm3 c3
    unfold onMapDblClick
    rw [if_neg (by simp [hg])]
  refine ⟨hno dm c, by rw [hno dm c], by rw [hno dm c],
    by rw [hno dm c, hno dm2 c2], ?_⟩
  intro p
  show (match onMapDblClick dm c s with
    | (g, none) => (⟨g, p⟩ : SessionState)
    | (g, some a) => ⟨g, some a⟩) = ⟨s, p⟩
  rw [hno dm c]

/-- Witness for C5: before the game starts, a double-click is ignored. -/
theorem claim_C5_witness :
    onMapDblClick (fun _ _ => 0) ⟨1, 1⟩ ⟨0, 0, false⟩ = (⟨0, 0, false⟩, none) :=
  (claim_C5 (fun _ _ => 0) (fun _ _ => 1) ⟨1, 1⟩ ⟨2, 2⟩ ⟨0, 0, false⟩ rfl).1

/-- C6: in every reachable session state — after page load, `startGame`, and
any sequence of guess and advance events — `0 ≤ currentIndex ≤ 5` (the
catalog length) and `0 ≤ correctCount ≤ currentIndex`. -/
theorem claim_C6 :
    ∀ st : SessionState, Reachable st →
      0 ≤ st.game.currentIndex ∧
      st.game.currentIndex ≤ LOCATIONS.length ∧
      0 ≤ st.game.correctCount ∧
      st.game.correctCount ≤ st.game.currentIndex := by
  intro st h
  obtain ⟨h1, h2, _⟩ := sessionInv_of_reachable h
  exact ⟨Nat.zero_le _, h1, Nat.zero_le _, h2⟩

/-- Witness for C6: the bounds hold in the state reached by starting the
game and firing one correct guess. -/
theorem claim_C6_witness :
    0 ≤ (stepSession (.select (fun _ _ => 0) ⟨0, 0⟩)
          (stepSession .pressStart ⟨⟨0, 0, false⟩, none⟩)).game.currentIndex ∧
    (stepSession (.select (fun _ _ => 0) ⟨0, 0⟩)
        (stepSession .pressStart ⟨⟨0, 0, false⟩, none⟩)).game.currentIndex ≤
      LOCATIONS.length ∧
    0 ≤ (stepSession (.select (fun _ _ => 0) ⟨0, 0⟩)
          (stepSession .pressStart ⟨⟨0, 0, false⟩, none⟩)).game.correctCount ∧
    (stepSession (.select (fun _ _ => 0) ⟨0, 0⟩)
        (stepSession .pressStart ⟨⟨0, 0, false⟩, none⟩)).game.correctCount ≤
      (stepSession (.select (fun _ _ => 0) ⟨0, 0⟩)
        (stepSession .pressStart ⟨⟨0, 0, false⟩, none⟩)).game.currentIndex :=
  claim_C6 _ (Reachable.step _ (Reachable.step _ Reachable.init))

/-- C7: `stopTimer` with no timer running returns `null` (`none`) without
changing anything — and, being a total function, without throwing; with a
timer running it clears the periodic tick and returns the elapsed seconds
from start to stop. -/
theorem claim_C7 :
    (∀ (now : ℚ) (t : TimerState), t.startTime = none →
      stopTimer now t = (t, none)) ∧
    (∀ (now st : ℚ) (iv : Option Unit),
      stopTimer now ⟨iv, some st⟩ = (⟨none, none⟩, some ((now - st) / 1000))) := by
  constructor
  · intro now t h
    unfold stopTimer
    rw [h]
  · intro now st iv
    rfl

/-- Witness for C7: stopping an un-started timer at time 5 yields `none`;
stopping a timer started at 2 ms at time 7 ms yields 5/1000 s. -/
theorem claim_C7_witness :
    stopTimer 5 ⟨none, none⟩ = (⟨none, none⟩, none) ∧
      stopTimer 7 ⟨some (), some 2⟩ = (⟨none, none⟩, some ((7 - 2) / 1000)) :=
  ⟨claim_C7.1 5 ⟨none, none⟩ rfl, claim_C7.2 7 2 (some ())⟩

/-- C3: after every `saveScore` the in-memory leaderboard holds at most 5
entries (at most `cap` in the capacity-abstracted form, at most 10 in the
persisted variant when the write goes through) and is sorted by the ranking
order; the kept entries rank no worse than every truncated entry, kept and
truncated together being exactly the inserted entries; and recording
`capacity + 3` results into an empty board leaves exactly `capacity`
entries — concretely, the 8 `sampleRecordings` leave exactly the best 5. -/
theorem claim_C3 :
    (∀ (scores : List ScoreEntry) (c t : Int) (ts : Option ℚ) (tm : Int),
      (saveScore scores c t ts tm).length ≤ 5 ∧
      (saveScore scores c t ts tm).Pairwise sLe) ∧
    (∀ (cap : Nat) (scores : List ScoreEntry) (c t : Int) (ts : Option ℚ)
        (tm : Int),
      (saveScoreMemCap cap scores c t ts tm).length ≤ cap ∧
      (saveScoreMemCap cap scores c t ts tm).Pairwise sLe) ∧
    (∀ (st : PersistLB) (c t : Int) (ts : Option ℚ) (tm : Int),
      st.stored ≠ .malformed →
      ∃ l : List ScoreEntry,
        (saveScorePersist false st c t ts tm).stored = .arr l ∧
        l.length ≤ 10 ∧ l.Pairwise sLe) ∧
    (∀ (scores : List ScoreEntry) (c t : Int) (ts : Option ℚ) (tm : Int),
      (∀ x ∈ saveScore scores c t ts tm,
        ∀ y ∈ (sortScores (scores ++ [mkEntry c t ts tm])).drop 5, sLe x y) ∧
      (saveScore scores c t ts tm ++
          (sortScores (scores ++ [mkEntry c t ts tm])).drop 5).Perm
        (scores ++ [mkEntry c t ts tm])) ∧
    (∀ (cap : Nat) (recs : List ScoreEntry), recs.length = cap + 3 →
      (runMem cap [] recs).length = cap) ∧
    (runMem 5 [] sampleRecordings =
      [⟨8, 8, some 8, 8⟩, ⟨7, 8, some 7, 7⟩, ⟨6, 8, some 6, 6⟩,
       ⟨5, 8, some 5, 5⟩, ⟨4, 8, some 4, 4⟩]) := by
  have hmem : ∀ (cap : Nat) (scores : List ScoreEntry) (c t : Int)
      (ts : Option ℚ) (tm : Int),
      (saveScoreMemCap cap scores c t ts tm).length ≤ cap ∧
      (saveScoreMemCap cap scores c t ts tm).Pairwise sLe := by
    intro cap scores c t ts tm
    constructor
    · rw [length_saveScoreMemCap]
      omega
    · exact List.Pairwise.sublist (List.take_sublist _ _) (pairwise_sortScores _)
  refine ⟨fun scores c t ts tm => hmem 5 scores c t ts tm, hmem, ?_, ?_, ?_,
    by decide⟩
  · intro st c t ts tm hm
    rcases st with ⟨sv, d⟩
    rcases sv with _ | _ | _ | l
    · exact ⟨_, rfl, (length_saveScoreMemCap 10 [] c t ts tm).le.trans (by simp),
        (hmem 10 [] c t ts tm).2⟩
    · exact absurd rfl hm
    · exact ⟨_, rfl, (length_saveScoreMemCap 10 [] c t ts tm).le.trans (by simp),
        (hmem 10 [] c t ts tm).2⟩
    · exact ⟨_, rfl, (length_saveScoreMemCap 10 l c t ts tm).le.trans (by simp),
        (hmem 10 l c t ts tm).2⟩
  · intro scores c t ts tm
    constructor
    · exact pairwise_take_drop (pairwise_sortScores _) 5
    · unfold saveScore
      rw [List.take_append_drop]
      exact perm_sortScores _
  · intro cap recs h
    rw [length_runMem cap recs [] (by simp)]
    simp only [List.length_nil]
    omega

/-- Witness for C3: recording the 8 sample results into an empty in-memory
leaderboard of capacity 5 leaves exactly 5 entries. -/
theorem claim_C3_witness :
    (runMem 5 [] sampleRecordings).length = 5 :=
  claim_C3.2.2.2.2.1 5 sampleRecordings rfl

/-- C8 as stated is false on the display text: with malformed stored data,
variant B's loader shows `"High Scores: Unavailable"`, not the empty
leaderboard message `"High Scores: none yet"` (nor the `"N/A"` placeholder
used for absent data). -/
theorem claim_C8_counterexample :
    loadScoresFromStorage .malformed = .unavailable ∧
      Display.unavailable ≠ renderScoreBoard [] ∧
      renderScoreBoard [] = .noneYet ∧
      Display.unavailable ≠ .na := by
  refine ⟨rfl, ?_, rfl, ?_⟩ <;> decide

/-- C8 (amended): a failing or malformed read of leaderboard storage is
caught locally and never propagates: the loader is total, turning the thrown
parse error into the `"High Scores: Unavailable"` placeholder, showing
`"High Scores: N/A"` for absent, non-array or empty data, and rendering the
board only for well-formed non-empty data; a failing write during `saveScore`
is swallowed leaving stored data and display unchanged, and a malformed read
during `saveScore` likewise aborts the save with the state unchanged.  The
game state is untouched in every case, so the game stays playable. -/
theorem claim_C8 :
    (∀ sv : StoredValue, loadScoresBody sv = .error () →
      loadScoresFromStorage sv = .unavailable) ∧
    (∀ sv : StoredValue,
      loadScoresFromStorage sv = .na ∨
      loadScoresFromStorage sv = .unavailable ∨
      ∃ entries : List ScoreEntry, sv = .arr entries ∧ entries ≠ [] ∧
        loadScoresFromStorage sv = .board entries) ∧
    loadScoresFromStorage .absent = .na ∧
    loadScoresFromStorage .nonArray = .na ∧
    loadScoresFromStorage (.arr []) = .na ∧
    loadScoresFromStorage .malformed = .unavailable ∧
    (∀ (st : PersistLB) (c t : Int) (ts : Option ℚ) (tm : Int),
      saveScorePersist true st c t ts tm = st) ∧
    (∀ (st : PersistLB) (c t : Int) (ts : Option ℚ) (tm : Int)
        (writeFails : Bool), st.stored = .malformed →
      saveScorePersistCap 10 writeFails st c t ts tm = st) := by
  refine ⟨?_, ?_, rfl, rfl, rfl, rfl, ?_, ?_⟩
  · intro sv h
    unfold loadScoresFromStorage
    rw [h]
  · intro sv
    rcases sv with _ | _ | _ | entries
    · exact Or.inl rfl
    · exact Or.inr (Or.inl rfl)
    · exact Or.inl rfl
    · rcases entries with _ | ⟨e, es⟩
      · exact Or.inl rfl
      · exact Or.inr (Or.inr ⟨e :: es, rfl, by simp, rfl⟩)
  · intro st c t ts tm
    rcases st with ⟨sv, d⟩
    rcases sv <;> rfl
  · intro st c t ts tm wf h
    rcases st with ⟨sv, d⟩
    cases h
    rfl

/-- Witness for C8: the malformed-storage read is recovered as the
`Unavailable` placeholder. -/
theorem claim_C8_witness :
    loadScoresFromStorage .malformed = .unavailable :=
  claim_C8.1 StoredValue.malformed rfl

/-- C10: when the storage write throws during variant B `saveScore`, the
exception is swallowed and both the stored entries and the displayed
leaderboard are exactly as before — the new entry is dropped entirely,
never shown or partially recorded. -/
theorem claim_C10 :
    ∀ (st : PersistLB) (correct total : Int) (ts : Option ℚ) (tm : Int),
      saveScorePersist true st correct total ts tm = st ∧
      (saveScorePersist true st correct total ts tm).stored = st.stored ∧
      (saveScorePersist true st correct total ts tm).display = st.display := by
  intro st c t ts tm
  have h : saveScorePersist true st c t ts tm = st := by
    rcases st with ⟨sv, d⟩
    rcases sv <;> rfl
  exact ⟨h, by rw [h], by rw [h]⟩

/-- C9: the two variants implement the same core recording logic.  With the
capacity abstracted as configuration, one variant B step on a well-formed
stored array equals the variant A step plus re-rendering; over any sequence
of recordings from any common starting entries, the persisted run stores and
displays exactly the in-memory run's board; and the source variants are the
capacity-5 and capacity-10 instances. -/
theorem claim_C9 :
    (∀ (cap : Nat) (init recs : List ScoreEntry),
      (runPersist cap init recs).stored = .arr (runMem cap init recs) ∧
      (runPersist cap init recs).display =
        renderScoreBoard (runMem cap init recs)) ∧
    (∀ (cap : Nat) (s : List ScoreEntry) (d : Display) (c t : Int)
        (ts : Option ℚ) (tm : Int),
      saveScorePersistCap cap false ⟨.arr s, d⟩ c t ts tm =
        ⟨.arr (saveScoreMemCap cap s c t ts tm),
          renderScoreBoard (saveScoreMemCap cap s c t ts tm)⟩) ∧
    (∀ (scores : List ScoreEntry) (c t : Int) (ts : Option ℚ) (tm : Int),
      saveScore scores c t ts tm = saveScoreMemCap 5 scores c t ts tm) ∧
    (∀ (writeFails : Bool) (st : PersistLB) (c t : Int) (ts : Option ℚ)
        (tm : Int),
      saveScorePersist writeFails st c t ts tm =
        saveScorePersistCap 10 writeFails st c t ts tm) := by
  refine ⟨?_, saveScorePersistCap_ok, fun _ _ _ _ _ => rfl,
    fun _ _ _ _ _ _ => rfl⟩
  intro cap init recs
  rw [runPersist_eq_runMem]
  exact ⟨rfl, rfl⟩

end MapQuiz
